import Mathlib

/-!
Verification of the `AccessControlMixin` from `girder/utility/acl_mixin.py`.

The mixin resolves access control for resources that inherit permissions from
a parent resource: a resource document carries either a parent-reference field
(`resourceParent`, resolved in collection `resourceColl`) or a polymorphic
attached-to pair (`attachedToType`, `attachedToId`).

This file is a shallow embedding: documents are structures over `Nat`
identifiers, stores are lists, fallible operations return `Except`, and the
collaborators that live outside the repository snapshot (the parent model's
native access-control logic, the raw find/load primitives, the constants
module) are modelled from the specification's description of their contracts.
-/

/-- A generic association-list lookup used to model Python `dict` access. -/
def assocGet {κ β : Type} [DecidableEq κ] : List (κ × β) → κ → Option β
  | [], _ => none
  | (k, v) :: rest, i => if k = i then some v else assocGet rest i

namespace AccessType

/-- Modelled from the spec: the ordered access-level enumeration
(read < write < admin), plus a distinguished site-admin level.  Levels are
plain integers, as the source compares them with `<` and `==`. -/
def READ : Int := 0

/-- Modelled from the spec: write level, above read. -/
def WRITE : Int := 1

/-- Modelled from the spec: admin level, above write. -/
def ADMIN : Int := 2

/-- Modelled from the spec: the distinguished site-admin level, ranked no
lower than admin. -/
def SITE_ADMIN : Int := 100

end AccessType

/-- The principal (a `user` dict in the source): an identifier and the
administrator flag that bypasses all permission filtering. -/
structure Principal where
  uid : Nat
  admin : Bool
deriving DecidableEq

/-- A document of an access-controlled parent collection: identifier, public
flag, a per-user ACL granting levels, and granted capability flags. -/
structure ParentDoc where
  pdId : Nat
  public : Bool
  acl : List (Nat × Int)
  userFlags : List (Nat × List String)
  publicFlags : List String
deriving DecidableEq

/-- A document of the mixin's own collection: identifier (`_id`), the value of
the parent-reference field (`doc[resourceParent]`, absent when `none`), the
attached-to pair, and the remaining queryable fields as an association list. -/
structure Doc where
  docId : Option Nat
  parent : Option Nat
  attachedToType : Option String
  attachedToId : Option Nat
  extra : List (String × String)
deriving DecidableEq

/-- Failures surfaced by the mixin's operations: a Python `KeyError` from
`doc[resourceParent]`, a not-found signal, or an `AccessException`. -/
inductive MixErr where
  | keyError
  | notFound
  | accessDenied (msg : String)
deriving DecidableEq

/-- Whether an optional user dict is a (truthy) administrator. -/
def userAdmin : Option Principal → Bool
  | none => false
  | some u => u.admin

/-- Whether an ACL entry grants `uid` at least `level`. -/
def aclGrants (acl : List (Nat × Int)) (uid : Nat) (level : Int) : Bool :=
  match assocGet acl uid with
  | some g => decide (level ≤ g)
  | none => false

/-- Modelled from the spec: the parent model's native `hasAccess`
(`AccessControlledModel.hasAccess`, a consumed collaborator).  An
administrator principal bypasses all permission filtering; an anonymous
principal only reaches read level on public documents; otherwise the
document's ACL must grant the level.  An absent document carries no grants,
so access is denied (fail closed). -/
def parentHasAccess (doc : Option ParentDoc) (user : Option Principal) (level : Int) : Bool :=
  if userAdmin user then true
  else
    match doc with
    | none => false
    | some d =>
      match user with
      | none => d.public && decide (level ≤ AccessType.READ)
      | some u => aclGrants d.acl u.uid level || (d.public && decide (level ≤ AccessType.READ))

/-- The capability flags granted to a principal on a parent document. -/
def grantedFlags (d : ParentDoc) (user : Option Principal) : List String :=
  match user with
  | none => d.publicFlags
  | some u => (assocGet d.userFlags u.uid).getD [] ++ d.publicFlags

/-- Modelled from the spec: the parent model's native `hasAccessFlags`
(a consumed collaborator).  Flags are an additive refinement: every requested
flag must be granted.  An administrator bypasses the check; an absent
document grants no flags (fail closed). -/
def parentHasAccessFlags (doc : Option ParentDoc) (user : Option Principal)
    (flags : List String) : Bool :=
  if userAdmin user then true
  else
    match doc with
    | none => false
    | some d => flags.all (fun f => decide (f ∈ grantedFlags d user))

/-- Modelled from the spec: the parent model's native `requireAccessFlags`
(a consumed collaborator): raise an access-denied signal unless
`hasAccessFlags` holds. -/
def parentRequireAccessFlags (doc : Option ParentDoc) (user : Option Principal)
    (flags : List String) : Except MixErr Unit :=
  if parentHasAccessFlags doc user flags then .ok ()
  else .error (.accessDenied "Access denied for resource.")

/-- Find a parent document by identifier in a parent collection. -/
def findParent : List ParentDoc → Nat → Option ParentDoc
  | [], _ => none
  | p :: rest, i => if p.pdId = i then some p else findParent rest i

/-- Find a mixin document by identifier in the mixin's own collection. -/
def findDoc : List Doc → Nat → Option Doc
  | [], _ => none
  | d :: rest, i => if d.docId = some i then some d else findDoc rest i

/-- A Mongo-style sort argument: either a list of key/direction pairs or the
relevance sort `[('_textScore', {'$meta': 'textScore'})]` added by
`textSearch`. -/
inductive SortArg where
  | byKeys (ks : List (String × Int))
  | textScore
deriving DecidableEq

/-- A store query, modelled as a conjunction of field-equality constraints
over the queryable fields of a document. -/
def Query : Type := List (String × String)

/-- Whether a document matches a query. -/
def queryMatches (q : Query) (d : Doc) : Bool :=
  q.all (fun kv => decide (assocGet d.extra kv.1 = some kv.2))

/-- The static configuration of one mixin-using resource type together with
the external collaborators it consumes: the collections, the store's sort
execution, the Permission Clause Builder, the text-search filter builder and
the relevance-sort threshold (`TEXT_SCORE_SORT_MAX`). -/
structure MixinCfg where
  name : String
  resourceColl : String
  stores : String → List ParentDoc
  docStore : List Doc
  parentIsAC : Bool
  dbVersion : Option (Nat × Nat)
  permClause : Option Principal → Int → ParentDoc → Bool
  sortBy : SortArg → List Doc → List Doc
  textFilters : String → Query → Query
  textScoreSortMax : Nat

/-- The collection behind `self.model(loadType)`; `self.model(None)` resolves
no collection. -/
def modelStore (cfg : MixinCfg) : Option String → List ParentDoc
  | some t => cfg.stores t
  | none => []

/-- The parent collection, `self.model(self.resourceColl)`. -/
def parentStoreList (cfg : MixinCfg) : List ParentDoc :=
  cfg.stores cfg.resourceColl

/-- `self.model(self.resourceColl).load(resourceId, force=True)`: the raw
(permission-bypassing) load of a parent document. -/
def rawParentLoad (cfg : MixinCfg) (pid : Nat) : Option ParentDoc :=
  findParent (parentStoreList cfg) pid

namespace AccessControlMixin

/-- `AccessControlMixin.hasAccess`: loads the parent named by the
parent-reference field with `force=True` and delegates the decision to the
parent model's `hasAccess`.  `resource[self.resourceParent]` raises a
`KeyError` when the field is absent. -/
def hasAccess (cfg : MixinCfg) (resource : Doc) (user : Option Principal)
    (level : Int) : Except MixErr Bool :=
  match resource.parent with
  | none => .error .keyError
  | some pid => .ok (parentHasAccess (rawParentLoad cfg pid) user level)

/-- `AccessControlMixin.hasAccessFlags`: short-circuits to true when no flags
are requested, else loads the parent with `force=True` and delegates to the
parent model's `hasAccessFlags`.  `doc[self.resourceParent]` raises a
`KeyError` when the field is absent. -/
def hasAccessFlags (cfg : MixinCfg) (doc : Doc) (user : Option Principal)
    (flags : List String) : Except MixErr Bool :=
  if flags.isEmpty then .ok true
  else
    match doc.parent with
    | none => .error .keyError
    | some pid => .ok (parentHasAccessFlags (rawParentLoad cfg pid) user flags)

/-- The permission name used in `requireAccess` messages:
read/write/admin (shared by site admin) or the unknown-level marker. -/
def permName (level : Int) : String :=
  if level = AccessType.READ then "Read"
  else if level = AccessType.WRITE then "Write"
  else if level = AccessType.ADMIN ∨ level = AccessType.SITE_ADMIN then "Admin"
  else "Unknown level"

/-- `str(user.get('_id', ''))` when the user dict is truthy, else the Python
rendering of `None` inside the formatted message. -/
def principalIdStr (user : Option Principal) : String :=
  match user with
  | some u => toString u.uid
  | none => "None"

/-- `doc.get('_id', 'unknown')` rendered into the message. -/
def docIdStr (doc : Doc) : String :=
  match doc.docId with
  | some i => toString i
  | none => "unknown"

/-- `AccessControlMixin.requireAccess`: raise a standard access-denied
message when `hasAccess` fails, formatted as
`"%s access denied for %s %s (user %s)."`. -/
def requireAccess (cfg : MixinCfg) (doc : Doc) (user : Option Principal)
    (level : Int) : Except MixErr Unit :=
  match hasAccess cfg doc user level with
  | .error e => .error e
  | .ok true => .ok ()
  | .ok false =>
    .error (.accessDenied
      (permName level ++ " access denied for " ++ cfg.name ++ " " ++ docIdStr doc
        ++ " (user " ++ principalIdStr user ++ ")."))

/-- `AccessControlMixin.requireAccessFlags`: returns immediately when no
flags are requested, else loads the parent with `force=True` and delegates to
the parent model's `requireAccessFlags`. -/
def requireAccessFlags (cfg : MixinCfg) (doc : Doc) (user : Option Principal)
    (flags : List String) : Except MixErr Unit :=
  if flags.isEmpty then .ok ()
  else
    match doc.parent with
    | none => .error .keyError
    | some pid => parentRequireAccessFlags (rawParentLoad cfg pid) user flags

end AccessControlMixin

/-- Modelled from the spec: the raw load primitive `Model.load` on the
mixin's own collection — look the document up by identifier; a missing
document is a not-found failure when `exc` is set, else `none`. -/
def rawLoad (store : List Doc) (id : Nat) (exc : Bool) : Except MixErr (Option Doc) :=
  match findDoc store id with
  | some d => .ok (some d)
  | none => if exc then .error .notFound else .ok none

/-- Modelled from the spec: the parent type's resolving load
(`AccessControlledModel.load`, a consumed collaborator): raw lookup by
identifier, then the principal must hold `level` on the document, failing
with an access-denied signal; an absent identifier or document is `none`
(or a not-found failure when `exc` is set). -/
def parentLoadAcc (store : List ParentDoc) (id : Option Nat) (level : Int)
    (user : Option Principal) (exc : Bool) : Except MixErr (Option ParentDoc) :=
  match id with
  | none => if exc then .error .notFound else .ok none
  | some i =>
    match findParent store i with
    | none => if exc then .error .notFound else .ok none
    | some p =>
      if parentHasAccess (some p) user level then .ok (some p)
      else .error (.accessDenied "Access denied for resource.")

instance {ε α : Type} [DecidableEq ε] [DecidableEq α] : DecidableEq (Except ε α) := fun a b =>
  match a, b with
  | .ok x, .ok y =>
    if h : x = y then .isTrue (by rw [h]) else .isFalse (by intro hc; cases hc; exact h rfl)
  | .error x, .error y =>
    if h : x = y then .isTrue (by rw [h]) else .isFalse (by intro hc; cases hc; exact h rfl)
  | .ok _, .error _ => .isFalse (by intro hc; cases hc)
  | .error _, .ok _ => .isFalse (by intro hc; cases hc)

/-- The outcome of `AccessControlMixin.load`, instrumented with the list of
delegated parent loads (the access checks) it performed: each entry records
the `loadType`, `loadId` and level of one `self.model(loadType).load(...)`
call. -/
structure LoadOut where
  result : Except MixErr (Option Doc)
  checks : List (Option String × Option Nat × Int)
deriving DecidableEq

namespace AccessControlMixin

/-- `AccessControlMixin.load`: raw-load the document, then — unless `force`
is set — resolve the parent (the parent-reference field when populated, else
the attached-to pair) and delegate a load at `level` to that parent type,
which performs the access check.  The supplemental-field projection of the
source is not modelled; the delegated parent loads are recorded in
`checks`. -/
def load (cfg : MixinCfg) (id : Nat) (level : Int) (user : Option Principal)
    (force : Bool) (exc : Bool) : LoadOut :=
  match rawLoad cfg.docStore id exc with
  | .error e => ⟨.error e, []⟩
  | .ok none => ⟨.ok none, []⟩
  | .ok (some d) =>
    if force then ⟨.ok (some d), []⟩
    else
      let lt : Option String :=
        if d.parent.isSome then some cfg.resourceColl else d.attachedToType
      let lid : Option Nat :=
        if d.parent.isSome then d.parent else d.attachedToId
      match parentLoadAcc (modelStore cfg lt) lid level user exc with
      | .error e => ⟨.error e, [(lt, lid, level)]⟩
      | .ok _ => ⟨.ok (some d), [(lt, lid, level)]⟩

/-- The access decision computed on a cache miss inside
`filterResultsByPermission.hasAccess`: load the parent with `force=True`,
ask the parent model for `hasAccess`, and — when flags were given — also for
`hasAccessFlags` (short-circuited by the Python `and`). -/
def accessDecision (cfg : MixinCfg) (user : Option Principal) (level : Int)
    (flags : List String) (pid : Nat) : Bool :=
  let resource := rawParentLoad cfg pid
  let val := parentHasAccess resource user level
  if flags.isEmpty then val
  else val && parentHasAccessFlags resource user flags

/-- `del result[key] for key in removeKeys`, on the queryable fields. -/
def stripKeys (removeKeys : List String) (d : Doc) : Doc :=
  { d with extra := d.extra.filter (fun kv => decide (kv.1 ∉ removeKeys)) }

/-- The outcome of one `filterResultsByPermission` pass: the yielded
documents, the candidates consumed from the source cursor, the parent
identifiers for which the decision block (one `force=True` parent load plus
one access computation) ran, in order, and the final decision cache. -/
structure FilterOut where
  out : List Doc
  examined : List Doc
  loads : List Nat
  cache : List (Nat × Bool)
deriving DecidableEq

/-- `itertools.islice(filter(hasAccess, cursor), offset, endIndex)` driven to
exhaustion, with the decision cache threaded through: `skip` counts filtered
items still to discard, `room` the filtered items still to yield (`none`
when `endIndex` is `None`).  `islice` stops consuming the source once `room`
reaches zero.  `_result[self.resourceParent]` raises a `KeyError` when the
parent-reference field is absent. -/
def filterLoop (cfg : MixinCfg) (user : Option Principal) (level : Int)
    (flags removeKeys : List String) :
    Nat → Option Nat → List (Nat × Bool) → List Doc → Except MixErr FilterOut
  | _, _, cache, [] => .ok ⟨[], [], [], cache⟩
  | skip, room, cache, d :: rest =>
    if room = some 0 then .ok ⟨[], [], [], cache⟩
    else
      match d.parent with
      | none => .error .keyError
      | some pid =>
        let cv := assocGet cache pid
        let v := match cv with
          | some b => b
          | none => accessDecision cfg user level flags pid
        let cache' := match cv with
          | some _ => cache
          | none => (pid, v) :: cache
        let ld : List Nat := match cv with
          | some _ => []
          | none => [pid]
        if v then
          match skip with
          | s + 1 =>
            (filterLoop cfg user level flags removeKeys s room cache' rest).map
              (fun r => ⟨r.out, d :: r.examined, ld ++ r.loads, r.cache⟩)
          | 0 =>
            (filterLoop cfg user level flags removeKeys 0 (room.map (· - 1)) cache' rest).map
              (fun r => ⟨stripKeys removeKeys d :: r.out, d :: r.examined,
                ld ++ r.loads, r.cache⟩)
        else
          (filterLoop cfg user level flags removeKeys skip room cache' rest).map
            (fun r => ⟨r.out, d :: r.examined, ld ++ r.loads, r.cache⟩)

/-- `AccessControlMixin.filterResultsByPermission`: a fresh decision cache,
`endIndex = offset + limit if limit else None`, and the islice-over-filter
pass over the source cursor. -/
def filterResultsByPermission (cfg : MixinCfg) (src : List Doc)
    (user : Option Principal) (level : Int) (limit offset : Nat)
    (removeKeys flags : List String) : Except MixErr FilterOut :=
  filterLoop cfg user level flags removeKeys offset
    (if limit = 0 then none else some limit) [] src

end AccessControlMixin

/-- Mongo-style pagination: skip `offset` documents, then `limit == 0` means
unbounded, else at most `limit` documents. -/
def applyWindow (offset limit : Nat) (l : List Doc) : List Doc :=
  if limit = 0 then l.drop offset else (l.drop offset).take limit

/-- The store's execution of an optional sort argument. -/
def applySortOpt (cfg : MixinCfg) (sort : Option SortArg) (l : List Doc) : List Doc :=
  match sort with
  | none => l
  | some s => cfg.sortBy s l

/-- A result handle: the documents the caller can iterate (a lazily raised
`KeyError` from the fallback generator surfaces as an error), and the
`count()` operation when the handle exposes a callable one (`none` for the
plain generator of the fallback path). -/
structure Handle where
  docs : Except MixErr (List Doc)
  count : Option Nat
deriving DecidableEq

/-- Modelled from the spec: the raw find primitive `Model.find` on the
mixin's own collection — filter by the query, sort, and window by
offset/limit; the pymongo handle's `count()` reports all matches of the
query, ignoring the window. -/
def rawFind (cfg : MixinCfg) (q : Query) (offset limit : Nat)
    (sort : Option SortArg) : Handle :=
  let ms := cfg.docStore.filter (queryMatches q)
  ⟨.ok (applyWindow offset limit (applySortOpt cfg sort ms)), some ms.length⟩

/-- The query `{'__matchnothing': 'nothing'}` substituted by the fast empty
path of `findWithPermissions`. -/
def matchNothingQuery : Query := [("__matchnothing", "nothing")]

/-- `level is not None and level > AccessType.READ`. -/
def levGtRead : Option Int → Bool
  | none => false
  | some l => decide (AccessType.READ < l)

/-- Python tuple comparison `v < (3, 4)` on the store version. -/
def versionBefore34 (v : Nat × Nat) : Bool :=
  decide (v.1 < 3) || (decide (v.1 = 3) && decide (v.2 < 4))

/-- The store-side pipeline is unavailable: the parent model is not itself a
natively access-controlled model, or the connected store version is unknown
or below (3, 4). -/
def fallbackNeeded (cfg : MixinCfg) : Bool :=
  !cfg.parentIsAC || cfg.dbVersion.isNone ||
    (match cfg.dbVersion with
     | none => true
     | some v => versionBefore34 v)

/-- The store-side `$match` of the Permission Clause Builder's predicate
against the `$lookup`-joined parent documents (`_access`): some joined parent
satisfies the clauses. -/
def pipelinePermMatch (cfg : MixinCfg) (user : Option Principal) (level : Int)
    (d : Doc) : Bool :=
  ((parentStoreList cfg).filter (fun p => decide (d.parent = some p.pdId))).any
    (cfg.permClause user level)

namespace AccessControlMixin

/-- `AccessControlMixin.findWithPermissions`: the query planner.
In priority order: the fast empty path (anonymous principal asking above
read — the query is replaced by `matchNothingQuery` and the raw find runs on
it); the filtering branch for a non-admin principal with a level (either the
client-side fetch-and-filter fallback — whose generator exposes no callable
`count` — or the store-side aggregation pipeline, whose `count()` runs the
count pipeline and reports the number of permission-matching documents,
ignoring the window); else the raw find on the caller's query.  The
`timeout`/`fields` pass-throughs are not modelled. -/
def findWithPermissions (cfg : MixinCfg) (query : Query) (offset limit : Nat)
    (sort : Option SortArg) (user : Option Principal) (level : Option Int) : Handle :=
  if user.isNone && levGtRead level then
    rawFind cfg matchNothingQuery offset limit sort
  else if level.isSome && (user.isNone || !userAdmin user) then
    let l := level.getD AccessType.READ
    if fallbackNeeded cfg then
      let cursor := rawFind cfg query 0 0 sort
      match cursor.docs with
      | .error e => ⟨.error e, none⟩
      | .ok docs =>
        match filterResultsByPermission cfg docs user l limit offset [] [] with
        | .error e => ⟨.error e, none⟩
        | .ok r => ⟨.ok r.out, none⟩
    else
      let matched := cfg.docStore.filter (queryMatches query)
      let permOk := matched.filter (pipelinePermMatch cfg user l)
      ⟨.ok (applyWindow offset limit (applySortOpt cfg sort permOk)), some permOk.length⟩
  else
    rawFind cfg query offset limit sort

/-- `AccessControlMixin.textSearch`: build the text filters, query once via
the planner, and — when no explicit sort was given, the handle exposes a
callable `count`, and the count is below `TEXT_SCORE_SORT_MAX` — re-issue
the query with the relevance sort key. -/
def textSearch (cfg : MixinCfg) (q : String) (user : Option Principal)
    (filters0 : Query) (limit offset : Nat) (sort : Option SortArg)
    (level : Int) : Handle :=
  let filters := cfg.textFilters q filters0
  let cursor := findWithPermissions cfg filters offset limit sort user (some level)
  match sort, cursor.count with
  | none, some c =>
    if c < cfg.textScoreSortMax then
      findWithPermissions cfg filters offset limit (some SortArg.textScore) user (some level)
    else cursor
  | _, _ => cursor

end AccessControlMixin

/-- The parent identifier of a document whose parent-reference field is
populated. -/
def pidOf (d : Doc) : Nat := d.parent.getD 0

/-- The `islice` upper window: `none` is unbounded, `some n` keeps `n`. -/
def takeRoom : Option Nat → List Doc → List Doc
  | none, l => l
  | some n, l => l.take n

/-- First occurrences of a list of identifiers that are not already in
`seen`: the order in which a pass with decision cache `seen` performs fresh
parent loads. -/
def dedupNew (seen : List Nat) : List Nat → List Nat
  | [] => []
  | x :: xs => if x ∈ seen then dedupNew seen xs else x :: dedupNew (x :: seen) xs

/-- A concrete parent document used by the closed witness instances. -/
def parentW : ParentDoc := ⟨1, false, [(7, AccessType.ADMIN)], [(7, ["flagA"])], []⟩

/-- A second concrete parent document, public but granting nothing else. -/
def parentW2 : ParentDoc := ⟨2, true, [], [], []⟩

/-- A concrete mixin configuration used by the closed witness instances. -/
def cfgW : MixinCfg :=
  ⟨"item", "folder", (fun s => if s = "folder" then [parentW, parentW2] else []),
    [⟨some 10, some 1, none, none, [("a", "x")]⟩,
     ⟨some 11, some 2, none, none, []⟩,
     ⟨some 12, some 1, none, none, []⟩],
    true, some (3, 6), (fun u _ p => userAdmin u || p.public),
    (fun _ l => l), (fun _ q => q), 200⟩

/-- The non-admin principal used by the closed witness instances. -/
def userW : Option Principal := some ⟨7, false⟩

/-- Ten concrete candidates over two distinct parents; exactly four (a parent
granting admin to `userW`) are accessible at write level. -/
def docs10W : List Doc :=
  (List.range 10).map
    (fun i => ⟨some i, some (if i % 3 = 0 then 1 else 2), none, none, []⟩)

section Lemmas

theorem assocGet_none_iff {κ β : Type} [DecidableEq κ] (l : List (κ × β)) (k : κ) :
    assocGet l k = none ↔ k ∉ l.map Prod.fst := by
  induction l with
  | nil => simp [assocGet]
  | cons kv rest ih =>
    obtain ⟨k1, v1⟩ := kv
    by_cases h : k1 = k
    · subst h
      simp [assocGet]
    · simp [assocGet, h, ih, Ne.symm h]

theorem dedupNew_nodup_mem : ∀ (xs seen : List Nat),
    (dedupNew seen xs).Nodup ∧ ∀ p, p ∈ dedupNew seen xs ↔ p ∈ xs ∧ p ∉ seen := by
  intro xs
  induction xs with
  | nil => intro seen; simp [dedupNew]
  | cons x xs ih =>
    intro seen
    by_cases hx : x ∈ seen
    · refine ⟨?_, fun p => ?_⟩
      · simp only [dedupNew, if_pos hx]
        exact (ih seen).1
      rw [show dedupNew seen (x :: xs) = dedupNew seen xs by
            simp only [dedupNew, if_pos hx], (ih seen).2]
      constructor
      · rintro ⟨hp, hps⟩; exact ⟨List.mem_cons_of_mem _ hp, hps⟩
      · rintro ⟨hp, hps⟩
        rcases List.mem_cons.mp hp with h | h
        · exact absurd (h ▸ hx) hps
        · exact ⟨h, hps⟩
    · have hunf : dedupNew seen (x :: xs) = x :: dedupNew (x :: seen) xs := by
        simp only [dedupNew, if_neg hx]
      constructor
      · rw [hunf]
        refine List.nodup_cons.mpr ⟨fun hmem => ?_, (ih (x :: seen)).1⟩
        have := ((ih (x :: seen)).2 x).mp hmem
        exact this.2 (List.mem_cons_self _ _)
      · intro p
        rw [hunf, List.mem_cons, (ih (x :: seen)).2]
        constructor
        · rintro (rfl | ⟨hp, hps⟩)
          · exact ⟨List.mem_cons_self _ _, hx⟩
          · exact ⟨List.mem_cons_of_mem _ hp,
              fun hc => hps (List.mem_cons_of_mem _ hc)⟩
        · rintro ⟨hp, hps⟩
          rcases List.mem_cons.mp hp with rfl | h
          · exact Or.inl rfl
          · by_cases hpx : p = x
            · exact Or.inl hpx
            · exact Or.inr ⟨h, fun hc => by
                rcases List.mem_cons.mp hc with h1 | h1
                · exact hpx h1
                · exact hps h1⟩

theorem stripKeys_nil (d : Doc) : AccessControlMixin.stripKeys [] d = d := by
  simp [AccessControlMixin.stripKeys]

theorem takeRoom_window (limit offset : Nat) (l : List Doc) :
    takeRoom (if limit = 0 then none else some limit) (l.drop offset) =
      applyWindow offset limit l := by
  by_cases h : limit = 0 <;> simp [h, takeRoom, applyWindow]

theorem accessDecision_split (cfg : MixinCfg) (user : Option Principal)
    (level : Int) (flags : List String) (pid : Nat) :
    AccessControlMixin.accessDecision cfg user level flags pid =
      (parentHasAccess (rawParentLoad cfg pid) user level &&
        (flags.isEmpty || parentHasAccessFlags (rawParentLoad cfg pid) user flags)) := by
  by_cases h : flags.isEmpty <;>
    simp [AccessControlMixin.accessDecision, h]

/-- The main characterization of one filtering pass: under a cache consistent
with the per-parent access decision, the pass succeeds on a source whose
documents all carry the parent-reference field, it yields exactly the
`skip`/`room` window of the decision-filtered source (redacted), its
consumed prefix is a prefix of the source, and its fresh parent loads are
exactly the first occurrences of the consumed parents not already cached. -/
theorem filterLoop_spec (cfg : MixinCfg) (user : Option Principal) (level : Int)
    (flags removeKeys : List String) :
    ∀ (src : List Doc) (skip : Nat) (room : Option Nat) (cache : List (Nat × Bool)),
    (∀ d ∈ src, (d.parent).isSome = true) →
    (∀ p b, assocGet cache p = some b →
      b = AccessControlMixin.accessDecision cfg user level flags p) →
    ∃ r, AccessControlMixin.filterLoop cfg user level flags removeKeys
        skip room cache src = .ok r ∧
      r.out = (takeRoom room ((src.filter (fun d =>
          AccessControlMixin.accessDecision cfg user level flags (pidOf d))).drop
            skip)).map (AccessControlMixin.stripKeys removeKeys) ∧
      r.loads = dedupNew (cache.map Prod.fst) (r.examined.map pidOf) := by
  intro src
  induction src with
  | nil =>
    intro skip room cache _ _
    exact ⟨⟨[], [], [], cache⟩, rfl, by cases room <;> simp [takeRoom],
      by simp [dedupNew]⟩
  | cons d rest ih =>
    intro skip room cache hp hcache
    obtain ⟨pid, hpid⟩ := Option.isSome_iff_exists.mp (hp d (List.mem_cons_self d rest))
    have hprest : ∀ x ∈ rest, (x.parent).isSome = true :=
      fun x hx => hp x (List.mem_cons_of_mem d hx)
    have hpidOf : pidOf d = pid := by simp [pidOf, hpid]
    by_cases hroom : room = some 0
    · subst hroom
      exact ⟨⟨[], [], [], cache⟩, by rw [AccessControlMixin.filterLoop]; simp [hpid],
        by simp [takeRoom], by simp [dedupNew]⟩
    · -- the decision value actually used for d
      cases hcv : assocGet cache pid with
      | some b =>
        have hb : b = AccessControlMixin.accessDecision cfg user level flags pid :=
          hcache pid b hcv
        have hseen : pid ∈ cache.map Prod.fst := by
          by_contra hc
          rw [← assocGet_none_iff] at hc
          rw [hc] at hcv
          exact Option.noConfusion hcv
        by_cases hv : AccessControlMixin.accessDecision cfg user level flags pid = true
        · cases skip with
          | succ s =>
            obtain ⟨r, hr, hout, hloads⟩ := ih s room cache hprest hcache
            refine ⟨⟨r.out, d :: r.examined, r.loads, r.cache⟩, ?_, ?_, ?_⟩
            · rw [AccessControlMixin.filterLoop]
              simp only [if_neg hroom, hpid, hcv, hb, hv, if_true, hr, Except.map,
                List.nil_append]
            · simp only [hout, List.filter_cons, hpidOf, hv, if_true,
                List.drop_succ_cons]
            · simp only [List.map_cons, hpidOf, dedupNew, if_pos hseen, hloads]
          | zero =>
            obtain ⟨r, hr, hout, hloads⟩ :=
              ih 0 (room.map (· - 1)) cache hprest hcache
            refine ⟨⟨AccessControlMixin.stripKeys removeKeys d :: r.out, d :: r.examined,
              r.loads, r.cache⟩, ?_, ?_, ?_⟩
            · rw [AccessControlMixin.filterLoop]
              simp only [if_neg hroom, hpid, hcv, hb, hv, if_true, hr, Except.map,
                List.nil_append]
            · simp only [hout, List.filter_cons, hpidOf, hv, if_true, List.drop_zero,
                List.map_cons]
              cases room with
              | none => simp [takeRoom]
              | some m =>
                match m, hroom with
                | m + 1, _ => simp [takeRoom, Option.map]
            · simp only [List.map_cons, hpidOf, dedupNew, if_pos hseen, hloads]
        · replace hv : AccessControlMixin.accessDecision cfg user level flags pid = false :=
            Bool.eq_false_iff.mpr hv
          obtain ⟨r, hr, hout, hloads⟩ := ih skip room cache hprest hcache
          refine ⟨⟨r.out, d :: r.examined, r.loads, r.cache⟩, ?_, ?_, ?_⟩
          · rw [AccessControlMixin.filterLoop]
            simp only [if_neg hroom, hpid, hcv, hb, hv, if_false, hr, Except.map,
              Bool.false_eq_true, List.nil_append]
          · simp only [hout, List.filter_cons, hpidOf, hv, Bool.false_eq_true, if_false]
          · simp only [List.map_cons, hpidOf, dedupNew, if_pos hseen, hloads]
      | none =>
        have hseen : pid ∉ cache.map Prod.fst := (assocGet_none_iff cache pid).mp hcv
        have hcache' : ∀ p b,
            assocGet ((pid, AccessControlMixin.accessDecision cfg user level flags pid)
              :: cache) p = some b →
            b = AccessControlMixin.accessDecision cfg user level flags p := by
          intro p b hg
          by_cases hpp : pid = p
          · subst hpp
            rw [assocGet, if_pos rfl] at hg
            exact (Option.some.inj hg).symm
          · rw [assocGet, if_neg hpp] at hg
            exact hcache p b hg
        by_cases hv : AccessControlMixin.accessDecision cfg user level flags pid = true
        · cases skip with
          | succ s =>
            obtain ⟨r, hr, hout, hloads⟩ := ih s room
              ((pid, AccessControlMixin.accessDecision cfg user level flags pid) :: cache)
              hprest hcache'
            refine ⟨⟨r.out, d :: r.examined, pid :: r.loads, r.cache⟩, ?_, ?_, ?_⟩
            · rw [AccessControlMixin.filterLoop]
              simp only [hv] at hr
              simp only [if_neg hroom, hpid, hcv, hv, if_true, hr, Except.map,
                List.singleton_append]
            · simp only [hout, List.filter_cons, hpidOf, hv, if_true,
                List.drop_succ_cons]
            · simp only [List.map_cons, hpidOf, dedupNew, if_neg hseen, hloads,
                List.map_cons]
          | zero =>
            obtain ⟨r, hr, hout, hloads⟩ := ih 0 (room.map (· - 1))
              ((pid, AccessControlMixin.accessDecision cfg user level flags pid) :: cache)
              hprest hcache'
            refine ⟨⟨AccessControlMixin.stripKeys removeKeys d :: r.out, d :: r.examined,
              pid :: r.loads, r.cache⟩, ?_, ?_, ?_⟩
            · rw [AccessControlMixin.filterLoop]
              simp only [hv] at hr
              simp only [if_neg hroom, hpid, hcv, hv, if_true, hr, Except.map,
                List.singleton_append]
            · simp only [hout, List.filter_cons, hpidOf, hv, if_true, List.drop_zero,
                List.map_cons]
              cases room with
              | none => simp [takeRoom]
              | some m =>
                match m, hroom with
                | m + 1, _ => simp [takeRoom, Option.map]
            · simp only [List.map_cons, hpidOf, dedupNew, if_neg hseen, hloads,
                List.map_cons]
        · replace hv : AccessControlMixin.accessDecision cfg user level flags pid = false :=
            Bool.eq_false_iff.mpr hv
          obtain ⟨r, hr, hout, hloads⟩ := ih skip room
            ((pid, AccessControlMixin.accessDecision cfg user level flags pid) :: cache)
            hprest hcache'
          refine ⟨⟨r.out, d :: r.examined, pid :: r.loads, r.cache⟩, ?_, ?_, ?_⟩
          · rw [AccessControlMixin.filterLoop]
            simp only [hv] at hr
            simp only [if_neg hroom, hpid, hcv, hv, if_false, hr, Except.map,
              List.singleton_append, Bool.false_eq_true]
          · simp only [hout, List.filter_cons, hpidOf, hv, Bool.false_eq_true, if_false]
          · simp only [List.map_cons, hpidOf, dedupNew, if_neg hseen, hloads,
              List.map_cons]

end Lemmas

theorem map_stripKeys_nil (l : List Doc) :
    l.map (AccessControlMixin.stripKeys []) = l := by
  induction l with
  | nil => rfl
  | cons a l ih => simp [stripKeys_nil, ih]

theorem empty_cache_consistent (cfg : MixinCfg) (user : Option Principal)
    (level : Int) (flags : List String) :
    ∀ p b, assocGet ([] : List (Nat × Bool)) p = some b →
      b = AccessControlMixin.accessDecision cfg user level flags p := by
  intro p b h
  simp [assocGet] at h

/-- C1: a resource with resolvable parent appears in the filtered sequence
iff the parent model's `hasAccess` is true and, when flags are given, the
parent model's `hasAccessFlags` is also true — subject to the offset/limit
window over the filtered sequence. -/
theorem filter_membership_iff_parent_access (cfg : MixinCfg)
    (user : Option Principal) (level : Int) (flags : List String)
    (src : List Doc) (limit offset : Nat)
    (hp : ∀ d ∈ src, (d.parent).isSome = true) :
    ∃ r, AccessControlMixin.filterResultsByPermission cfg src user level limit offset
        [] flags = .ok r ∧
      ∀ d : Doc, d ∈ r.out ↔
        d ∈ applyWindow offset limit (src.filter (fun x =>
          parentHasAccess (rawParentLoad cfg (pidOf x)) user level &&
          (flags.isEmpty || parentHasAccessFlags (rawParentLoad cfg (pidOf x)) user flags))) := by
  obtain ⟨r, hr, hout, _⟩ := filterLoop_spec cfg user level flags [] src offset
    (if limit = 0 then none else some limit) [] hp
    (empty_cache_consistent cfg user level flags)
  refine ⟨r, hr, fun d => ?_⟩
  rw [hout, map_stripKeys_nil, takeRoom_window]
  simp only [accessDecision_split]

/-- C1 witness: over the concrete store, the resources whose parent grants
the level are exactly those yielded. -/
theorem filter_membership_iff_parent_access_witness :
    (∀ d ∈ cfgW.docStore, (d.parent).isSome = true) ∧
    ∃ r, AccessControlMixin.filterResultsByPermission cfgW cfgW.docStore userW
        AccessType.WRITE 0 0 [] [] = .ok r ∧
      ∀ d : Doc, d ∈ r.out ↔
        d ∈ applyWindow 0 0 (cfgW.docStore.filter (fun x =>
          parentHasAccess (rawParentLoad cfgW (pidOf x)) userW AccessType.WRITE &&
          (([] : List String).isEmpty ||
            parentHasAccessFlags (rawParentLoad cfgW (pidOf x)) userW []))) :=
  ⟨by decide,
    filter_membership_iff_parent_access cfgW userW AccessType.WRITE [] cfgW.docStore
      0 0 (by decide)⟩

/-- C4: pagination applies to the filtered sequence — the yielded items are
exactly the accessible candidates ranked `offset+1` through `offset+limit`
in source order (denied candidates consume no slot), and `limit == 0` means
unbounded. -/
theorem filter_pagination_on_filtered (cfg : MixinCfg) (user : Option Principal)
    (level : Int) (flags : List String) (src : List Doc) (limit offset : Nat)
    (hp : ∀ d ∈ src, (d.parent).isSome = true) :
    ∃ r, AccessControlMixin.filterResultsByPermission cfg src user level limit offset
        [] flags = .ok r ∧
      r.out = (if limit = 0 then
          (src.filter (fun d =>
            AccessControlMixin.accessDecision cfg user level flags (pidOf d))).drop offset
        else
          ((src.filter (fun d =>
            AccessControlMixin.accessDecision cfg user level flags (pidOf d))).drop
              offset).take limit) := by
  obtain ⟨r, hr, hout, _⟩ := filterLoop_spec cfg user level flags [] src offset
    (if limit = 0 then none else some limit) [] hp
    (empty_cache_consistent cfg user level flags)
  refine ⟨r, hr, ?_⟩
  rw [hout, map_stripKeys_nil]
  by_cases hl : limit = 0 <;> simp [hl, takeRoom]

/-- C4 witness: ten candidates of which exactly four are accessible;
`offset=1, limit=2` yields the 2nd and 3rd accessible candidates. -/
theorem filter_pagination_on_filtered_witness :
    (∀ d ∈ docs10W, (d.parent).isSome = true) ∧
    ∃ r, AccessControlMixin.filterResultsByPermission cfgW docs10W userW
        AccessType.WRITE 2 1 [] [] = .ok r ∧
      r.out = ((docs10W.filter (fun d =>
        AccessControlMixin.accessDecision cfgW userW AccessType.WRITE [] (pidOf d))).drop
          1).take 2 :=
  ⟨by decide, by
    obtain ⟨r, hr, hout⟩ := filter_pagination_on_filtered cfgW userW AccessType.WRITE []
      docs10W 2 1 (by decide)
    exact ⟨r, hr, by simpa using hout⟩⟩

/-- C5: within a single pass, the decision block — one `force=True` parent
load plus one access computation — runs exactly once per distinct parent
identifier among the candidates actually examined, in first-occurrence
order; a parent already decided in the pass is never re-read. -/
theorem filter_one_load_per_parent (cfg : MixinCfg) (user : Option Principal)
    (level : Int) (flags removeKeys : List String) (src : List Doc)
    (limit offset : Nat)
    (hp : ∀ d ∈ src, (d.parent).isSome = true) :
    ∃ r, AccessControlMixin.filterResultsByPermission cfg src user level limit offset
        removeKeys flags = .ok r ∧
      r.loads = dedupNew [] (r.examined.map pidOf) ∧
      r.loads.Nodup ∧
      (∀ p, p ∈ r.loads ↔ p ∈ r.examined.map pidOf) ∧
      (∀ p, p ∈ r.examined.map pidOf → r.loads.count p = 1) := by
  obtain ⟨r, hr, _, hloads⟩ := filterLoop_spec cfg user level flags removeKeys src offset
    (if limit = 0 then none else some limit) [] hp
    (empty_cache_consistent cfg user level flags)
  have hmem : ∀ p, p ∈ r.loads ↔ p ∈ r.examined.map pidOf := by
    intro p
    rw [hloads]
    have h := (dedupNew_nodup_mem (r.examined.map pidOf) []).2 p
    simpa using h
  have hnodup : r.loads.Nodup := by
    rw [hloads]
    exact (dedupNew_nodup_mem (r.examined.map pidOf) (List.map Prod.fst [])).1
  refine ⟨r, hr, by simpa using hloads, hnodup, hmem, fun p hpmem => ?_⟩
  have h1 : 1 ≤ r.loads.count p := List.count_pos_iff.mpr ((hmem p).mpr hpmem)
  have h2 : r.loads.count p ≤ 1 := List.nodup_iff_count_le_one.mp hnodup p
  exact Nat.le_antisymm h2 h1

/-- C5 witness: ten candidates over two distinct parents trigger exactly two
parent loads, one per distinct parent. -/
theorem filter_one_load_per_parent_witness :
    (∀ d ∈ docs10W, (d.parent).isSome = true) ∧
    ∃ r, AccessControlMixin.filterResultsByPermission cfgW docs10W userW
        AccessType.WRITE 0 0 [] [] = .ok r ∧
      r.loads = dedupNew [] (r.examined.map pidOf) ∧
      r.loads.Nodup ∧
      (∀ p, p ∈ r.loads ↔ p ∈ r.examined.map pidOf) ∧
      (∀ p, p ∈ r.examined.map pidOf → r.loads.count p = 1) :=
  ⟨by decide,
    filter_one_load_per_parent cfgW userW AccessType.WRITE [] [] docs10W 0 0 (by decide)⟩

/-- C3: `load` with `force=True` performs no access check — no parent
resolution, no delegated load at any level (`checks = []`) — and returns the
raw resource exactly as the raw load primitive yields it, in particular the
stored document whenever it exists. -/
theorem load_force_bypasses_checks (cfg : MixinCfg) (id : Nat) (level : Int)
    (user : Option Principal) (exc : Bool) :
    AccessControlMixin.load cfg id level user true exc = ⟨rawLoad cfg.docStore id exc, []⟩ ∧
    ∀ d : Doc, findDoc cfg.docStore id = some d →
      AccessControlMixin.load cfg id level user true exc = ⟨.ok (some d), []⟩ := by
  constructor
  · cases h : rawLoad cfg.docStore id exc with
    | error e => simp [AccessControlMixin.load, h]
    | ok a => cases a <;> simp [AccessControlMixin.load, h]
  · intro d hd
    simp [AccessControlMixin.load, rawLoad, hd]

/-- C3 witness: a stored document is returned unchanged by a forced load,
with no delegated access checks. -/
theorem load_force_bypasses_checks_witness :
    findDoc cfgW.docStore 11 = some ⟨some 11, some 2, none, none, []⟩ ∧
    AccessControlMixin.load cfgW 11 AccessType.ADMIN none true false =
      ⟨.ok (some ⟨some 11, some 2, none, none, []⟩), []⟩ :=
  ⟨by decide,
    (load_force_bypasses_checks cfgW 11 AccessType.ADMIN none false).2 _ (by decide)⟩

/-- C7: when access is denied, `requireAccess` raises an access-denied error
whose message names the attempted level (Read / Write / Admin for both admin
and site-admin / the unknown-level marker), the resource type name, the
resource identifier (or `unknown` when absent) and the principal identifier
(or `None` for an anonymous principal); when access is granted it raises
nothing. -/
theorem requireAccess_denied_message (cfg : MixinCfg) (doc : Doc)
    (user : Option Principal) (level : Int) :
    (AccessControlMixin.hasAccess cfg doc user level = .ok false →
      AccessControlMixin.requireAccess cfg doc user level =
        .error (.accessDenied (AccessControlMixin.permName level
          ++ " access denied for " ++ cfg.name ++ " " ++ AccessControlMixin.docIdStr doc
          ++ " (user " ++ AccessControlMixin.principalIdStr user ++ ")."))) ∧
    (AccessControlMixin.hasAccess cfg doc user level = .ok true →
      AccessControlMixin.requireAccess cfg doc user level = .ok ()) ∧
    AccessControlMixin.permName AccessType.READ = "Read" ∧
    AccessControlMixin.permName AccessType.WRITE = "Write" ∧
    AccessControlMixin.permName AccessType.ADMIN = "Admin" ∧
    AccessControlMixin.permName AccessType.SITE_ADMIN = "Admin" ∧
    (∀ d2 : Doc, d2.docId = none → AccessControlMixin.docIdStr d2 = "unknown") ∧
    AccessControlMixin.principalIdStr none = "None" ∧
    (∀ u : Principal, AccessControlMixin.principalIdStr (some u) = toString u.uid) := by
  refine ⟨fun h => ?_, fun h => ?_, by decide, by decide, by decide, by decide,
    fun d2 h2 => ?_, rfl, fun u => rfl⟩
  · simp [AccessControlMixin.requireAccess, h]
  · simp [AccessControlMixin.requireAccess, h]
  · simp [AccessControlMixin.docIdStr, h2]

/-- C7 witness: a concrete denial yields exactly the formatted message, and a
concrete grant raises nothing. -/
theorem requireAccess_denied_message_witness :
    AccessControlMixin.hasAccess cfgW ⟨some 11, some 2, none, none, []⟩ userW
      AccessType.WRITE = .ok false ∧
    AccessControlMixin.requireAccess cfgW ⟨some 11, some 2, none, none, []⟩ userW
      AccessType.WRITE =
      .error (.accessDenied "Write access denied for item 11 (user 7).") :=
  ⟨by decide,
    by
      have h := (requireAccess_denied_message cfgW ⟨some 11, some 2, none, none, []⟩
        userW AccessType.WRITE).1 (by decide)
      exact h.trans (by decide)⟩

/-- C9: `hasAccess`, `hasAccessFlags` (with non-empty flags) and
`requireAccessFlags` resolve the parent exclusively through the
parent-reference field: when it is absent they fail with a key-lookup error,
and their outcome never consults the attached-to pair; `load`, by contrast,
does honor the attached-to pair for such resources (its delegated check
targets `attachedToType`/`attachedToId`). -/
theorem checker_requires_parent_field (cfg : MixinCfg) (d : Doc)
    (user : Option Principal) (level : Int) (flags : List String)
    (hflags : flags ≠ []) :
    (d.parent = none →
      AccessControlMixin.hasAccess cfg d user level = .error .keyError ∧
      AccessControlMixin.hasAccessFlags cfg d user flags = .error .keyError ∧
      AccessControlMixin.requireAccessFlags cfg d user flags = .error .keyError) ∧
    (∀ t : Option String, ∀ i : Option Nat,
      AccessControlMixin.hasAccess cfg { d with attachedToType := t, attachedToId := i }
          user level = AccessControlMixin.hasAccess cfg d user level ∧
      AccessControlMixin.hasAccessFlags cfg { d with attachedToType := t, attachedToId := i }
          user flags = AccessControlMixin.hasAccessFlags cfg d user flags ∧
      AccessControlMixin.requireAccessFlags cfg
          { d with attachedToType := t, attachedToId := i } user flags =
        AccessControlMixin.requireAccessFlags cfg d user flags) ∧
    (∀ id : Nat, findDoc cfg.docStore id = some d → d.parent = none →
      (AccessControlMixin.load cfg id level user false false).checks =
        [(d.attachedToType, d.attachedToId, level)]) := by
  have hne : flags.isEmpty = false := by
    cases flags with
    | nil => exact absurd rfl hflags
    | cons a as => rfl
  refine ⟨fun hp => ?_, fun t i => ⟨rfl, rfl, rfl⟩, fun id hid hp => ?_⟩
  · refine ⟨?_, ?_, ?_⟩
    · simp [AccessControlMixin.hasAccess, hp]
    · simp [AccessControlMixin.hasAccessFlags, hne, hp]
    · simp [AccessControlMixin.requireAccessFlags, hne, hp]
  · cases h : parentLoadAcc (modelStore cfg d.attachedToType) d.attachedToId level user false with
    | error e =>
      simp [AccessControlMixin.load, rawLoad, hid, hp, h]
    | ok a =>
      simp [AccessControlMixin.load, rawLoad, hid, hp, h]

/-- C9 witness: on a parentless document all three checkers raise the
key-lookup error, while a (non-forced) load of an attached document delegates
its check to the attached-to pair. -/
theorem checker_requires_parent_field_witness :
    (["flagA"] : List String) ≠ [] ∧
    AccessControlMixin.hasAccess cfgW ⟨some 3, none, some "note", some 9, []⟩ userW
      AccessType.READ = .error .keyError ∧
    (AccessControlMixin.load
        { cfgW with docStore := [⟨some 3, none, some "note", some 9, []⟩] }
        3 AccessType.READ userW false false).checks =
      [(some "note", some 9, AccessType.READ)] := by
  have h := checker_requires_parent_field
    { cfgW with docStore := [⟨some 3, none, some "note", some 9, []⟩] }
    ⟨some 3, none, some "note", some 9, []⟩ userW AccessType.READ ["flagA"]
    (by decide)
  refine ⟨by decide, ?_, h.2.2 3 (by decide) rfl⟩
  have h2 := (checker_requires_parent_field cfgW ⟨some 3, none, some "note", some 9, []⟩
    userW AccessType.READ ["flagA"] (by decide)).1 rfl
  exact h2.1

/-- C10: for an anonymous principal requesting above read, the caller's query
is discarded wholesale before the raw find runs, so any two queries produce
observably identical results. -/
theorem anonymous_above_read_query_independent (cfg : MixinCfg) (q1 q2 : Query)
    (offset limit : Nat) (sort : Option SortArg) (l : Int)
    (hl : AccessType.READ < l) :
    AccessControlMixin.findWithPermissions cfg q1 offset limit sort none (some l) =
      AccessControlMixin.findWithPermissions cfg q2 offset limit sort none (some l) := by
  simp [AccessControlMixin.findWithPermissions, levGtRead, hl]

theorem matchNothing_filter_nil (ds : List Doc)
    (hstore : ∀ d ∈ ds, assocGet d.extra "__matchnothing" = none) :
    ds.filter (queryMatches matchNothingQuery) = [] := by
  induction ds with
  | nil => rfl
  | cons d rest ih =>
    have hd := hstore d (List.mem_cons_self d rest)
    have hmatch : queryMatches matchNothingQuery d = false := by
      simp [queryMatches, matchNothingQuery, hd]
    rw [List.filter_cons, hmatch]
    simp only [Bool.false_eq_true, if_false]
    exact ih (fun x hx => hstore x (List.mem_cons_of_mem d hx))

theorem applyWindow_nil (offset limit : Nat) : applyWindow offset limit [] = [] := by
  by_cases h : limit = 0 <;> simp [applyWindow, h]

/-- C2: with an anonymous principal and a level strictly above read, the
effective query is replaced by the match-nothing query, a handle over that
impossible query is returned, its `count()` yields 0 and it iterates no
documents — provided the data model reserves no `__matchnothing` field and
the store's sort execution permutes its input. -/
theorem anonymous_above_read_empty (cfg : MixinCfg) (q : Query)
    (offset limit : Nat) (sort : Option SortArg) (l : Int)
    (hl : AccessType.READ < l)
    (hstore : ∀ d ∈ cfg.docStore, assocGet d.extra "__matchnothing" = none)
    (hperm : ∀ s ds, (cfg.sortBy s ds).Perm ds) :
    AccessControlMixin.findWithPermissions cfg q offset limit sort none (some l) =
      rawFind cfg matchNothingQuery offset limit sort ∧
    (AccessControlMixin.findWithPermissions cfg q offset limit sort none (some l)).count =
      some 0 ∧
    (AccessControlMixin.findWithPermissions cfg q offset limit sort none (some l)).docs =
      .ok [] := by
  have heq : AccessControlMixin.findWithPermissions cfg q offset limit sort none (some l) =
      rawFind cfg matchNothingQuery offset limit sort := by
    simp [AccessControlMixin.findWithPermissions, levGtRead, hl]
  have hnil := matchNothing_filter_nil cfg.docStore hstore
  have hsortNil : applySortOpt cfg sort [] = [] := by
    cases sort with
    | none => rfl
    | some s => exact (hperm s []).eq_nil
  refine ⟨heq, ?_, ?_⟩
  · rw [heq]
    simp [rawFind, hnil]
  · rw [heq]
    simp [rawFind, hnil, hsortNil, applyWindow_nil]

/-- C2 witness: an anonymous admin-level find over the concrete store yields
the empty handle with count 0. -/
theorem anonymous_above_read_empty_witness :
    AccessType.READ < AccessType.ADMIN ∧
    (AccessControlMixin.findWithPermissions cfgW [("a", "x")] 0 5 none none
        (some AccessType.ADMIN)).count = some 0 ∧
    (AccessControlMixin.findWithPermissions cfgW [("a", "x")] 0 5 none none
        (some AccessType.ADMIN)).docs = .ok [] :=
  ⟨by decide,
    (anonymous_above_read_empty cfgW [("a", "x")] 0 5 none AccessType.ADMIN
      (by decide) (by decide) (fun _ _ => List.Perm.refl _)).2⟩

/-- C6 counterexample: the claim says every principal gets `false` on an
unresolvable parent, but an administrator principal is granted access by the
parent model's global admin override even though the parent is missing. -/
theorem checker_missing_parent_admin_counterexample :
    rawParentLoad cfgW 999 = none ∧
    AccessControlMixin.hasAccess cfgW ⟨some 1, some 999, none, none, []⟩
      (some ⟨5, true⟩) AccessType.READ = .ok true :=
  ⟨by decide, by decide⟩

/-- C6 (amended): the delegated checkers never raise on a missing parent
document — the decision is the parent model's fail-closed answer on an
absent document, which is `false` for every principal without the
administrator override (administrators are granted by the global
override). -/
theorem checker_missing_parent_fails_closed (cfg : MixinCfg) (d : Doc)
    (user : Option Principal) (level : Int) (flags : List String) (pid : Nat)
    (hp : d.parent = some pid) (hmiss : rawParentLoad cfg pid = none) :
    AccessControlMixin.hasAccess cfg d user level =
      .ok (parentHasAccess none user level) ∧
    (userAdmin user = false →
      AccessControlMixin.hasAccess cfg d user level = .ok false) ∧
    (flags ≠ [] → AccessControlMixin.hasAccessFlags cfg d user flags =
      .ok (parentHasAccessFlags none user flags)) ∧
    (userAdmin user = false → flags ≠ [] →
      AccessControlMixin.hasAccessFlags cfg d user flags = .ok false) := by
  have h1 : AccessControlMixin.hasAccess cfg d user level =
      .ok (parentHasAccess none user level) := by
    simp [AccessControlMixin.hasAccess, hp, hmiss]
  have h3 : flags ≠ [] → AccessControlMixin.hasAccessFlags cfg d user flags =
      .ok (parentHasAccessFlags none user flags) := by
    intro hf
    have hne : flags.isEmpty = false := by
      cases flags with
      | nil => exact absurd rfl hf
      | cons a as => rfl
    simp [AccessControlMixin.hasAccessFlags, hne, hp, hmiss]
  refine ⟨h1, fun ha => ?_, h3, fun ha hf => ?_⟩
  · rw [h1]
    simp [parentHasAccess, ha]
  · rw [h3 hf]
    simp [parentHasAccessFlags, ha]

/-- C6 witness: a non-administrator principal gets `ok false` — no raised
error — for both checkers on a resource whose parent is unresolvable. -/
theorem checker_missing_parent_fails_closed_witness :
    (⟨some 1, some 999, none, none, []⟩ : Doc).parent = some 999 ∧
    rawParentLoad cfgW 999 = none ∧
    userAdmin userW = false ∧
    AccessControlMixin.hasAccess cfgW ⟨some 1, some 999, none, none, []⟩ userW
      AccessType.READ = .ok false ∧
    AccessControlMixin.hasAccessFlags cfgW ⟨some 1, some 999, none, none, []⟩ userW
      ["flagA"] = .ok false := by
  have h := checker_missing_parent_fails_closed cfgW ⟨some 1, some 999, none, none, []⟩
    userW AccessType.READ ["flagA"] 999 rfl (by decide)
  exact ⟨rfl, by decide, by decide, h.2.1 (by decide), h.2.2.2 (by decide) (by decide)⟩

/-- C8: `textSearch` issues the second, relevance-sorted query exactly when
no explicit sort was given, the first handle exposes a callable count, and
that count is strictly below the configured threshold; otherwise the first,
non-relevance-sorted handle is returned unchanged. -/
theorem textSearch_resort_below_threshold (cfg : MixinCfg) (q : String)
    (user : Option Principal) (filters0 : Query) (limit offset : Nat)
    (sort : Option SortArg) (level : Int) :
    (∀ c : Nat, sort = none →
      (AccessControlMixin.findWithPermissions cfg (cfg.textFilters q filters0) offset
        limit none user (some level)).count = some c →
      c < cfg.textScoreSortMax →
      AccessControlMixin.textSearch cfg q user filters0 limit offset sort level =
        AccessControlMixin.findWithPermissions cfg (cfg.textFilters q filters0) offset
          limit (some SortArg.textScore) user (some level)) ∧
    ((sort = none → ∀ c : Nat,
        (AccessControlMixin.findWithPermissions cfg (cfg.textFilters q filters0) offset
          limit sort user (some level)).count = some c →
        cfg.textScoreSortMax ≤ c) →
      AccessControlMixin.textSearch cfg q user filters0 limit offset sort level =
        AccessControlMixin.findWithPermissions cfg (cfg.textFilters q filters0) offset
          limit sort user (some level)) := by
  constructor
  · intro c hs hc hlt
    subst hs
    simp only [AccessControlMixin.textSearch, hc, hlt, if_true]
  · intro hother
    cases sort with
    | some s => simp only [AccessControlMixin.textSearch]
    | none =>
      cases hc : (AccessControlMixin.findWithPermissions cfg (cfg.textFilters q filters0)
          offset limit none user (some level)).count with
      | none => simp only [AccessControlMixin.textSearch, hc]
      | some c =>
        have hge := hother rfl c hc
        simp only [AccessControlMixin.textSearch, hc, if_neg (Nat.not_lt.mpr hge)]

/-- C8 witness: with a small accessible count the relevance-sorted query is
issued; raising no-sort to an explicit sort returns the first handle. -/
theorem textSearch_resort_below_threshold_witness :
    (AccessControlMixin.findWithPermissions cfgW (cfgW.textFilters "q" []) 0 0 none
      userW (some AccessType.WRITE)).count = some 1 ∧
    1 < cfgW.textScoreSortMax ∧
    AccessControlMixin.textSearch cfgW "q" userW [] 0 0 none AccessType.WRITE =
      AccessControlMixin.findWithPermissions cfgW (cfgW.textFilters "q" []) 0 0
        (some SortArg.textScore) userW (some AccessType.WRITE) :=
  ⟨by decide, by decide,
    (textSearch_resort_below_threshold cfgW "q" userW [] 0 0 none AccessType.WRITE).1 1
      rfl (by decide) (by decide)⟩

/-- C10 witness: two concrete, differently-matching queries yield the same
handle for an anonymous admin-level find. -/
theorem anonymous_above_read_query_independent_witness :
    AccessType.READ < AccessType.ADMIN ∧
    AccessControlMixin.findWithPermissions cfgW [("a", "x")] 0 0 none none
        (some AccessType.ADMIN) =
      AccessControlMixin.findWithPermissions cfgW [("zzz", "q")] 0 0 none none
        (some AccessType.ADMIN) :=
  ⟨by decide,
    anonymous_above_read_query_independent cfgW [("a", "x")] [("zzz", "q")] 0 0 none
      AccessType.ADMIN (by decide)⟩
